import Mathlib

/-!
Verification of the cyberdriver reverse-tunnel client (`cyberdriver.py`)
against its natural-language specification.

The development shallowly embeds the pieces of the source that the
claims are about:

* the reconnect supervisor (`TunnelClient.run`): classification of a
  session termination by close code / reason / duration, the
  consecutive-failure counter and the exponential-backoff sleep value;
* the WebSocket receive loop (`TunnelClient._connect_and_run`): the
  per-message state machine over text/binary frames;
* the idempotency cache (`TunnelClient._cleanup_idempotency_cache`) and
  the request dispatch (`TunnelClient._forward_request`);
* the response encoder (`TunnelClient._send_response`);
* the constructor clamping of `KeepAliveManager` and
  `BlackScreenRecoveryManager`.

Python floats (`time.time()` values, sleep durations) are modelled as
rationals; byte strings as `List Nat`; Python dicts as association
lists with unique keys (insertion preserves order, as CPython dicts do).
-/

namespace Cyberdriver

/-! ## Supervisor: `TunnelClient.run`

One iteration of the `while True` reconnect loop, from the point where a
session termination (a `ConnectionClosed` / `InvalidStatus` exception, or
any other exception) has been caught.  `close_code` is the code extracted
from the exception (`e.rcvd.code`/`e.sent.code`, or the HTTP status for a
pre-upgrade reject), `close_reason` the extracted reason string.
-/

/-- Supervisor state carried across loop iterations: the
`_consecutive_failures` field and the local `sleep_time` variable. -/
structure SupervisorState where
  consecutive_failures : Nat
  sleep_time : ℚ
  deriving DecidableEq

/-- `self.min_sleep` (set in `TunnelClient.__init__`). -/
def minSleep : ℚ := 1

/-- `self.max_sleep` (set in `TunnelClient.__init__`). -/
def maxSleep : ℚ := 16

/-- How a session terminated, as seen by the `except` clauses of
`TunnelClient.run`: either a `ConnectionClosed`/`InvalidStatus` with an
extracted close code and reason, or any other exception (the generic
`except Exception` branch).  In the program an `InvalidStatus` never
actually reaches the first handler: every connect-time failure is
re-raised as the builtin `ConnectionError` (see
`preUpgradeRejectEvent`), so the `wsClosed` events that occur are the
`ConnectionClosed` ones raised from the message loop. -/
inductive TermEvent where
  | wsClosed (code : Option Int) (reason : Option String)
  | otherError
  deriving DecidableEq

/-- What one loop iteration does after classifying the termination:
either the process exits (with an exit code, and whether the
"Authentication Failed" banner was printed), or the loop sleeps for
`sleepSeconds` and continues with an updated state. -/
inductive SupervisorOutcome where
  | exitProcess (exitCode : Nat) (printedAuthFailure : Bool)
  | continueAfter (sleepSeconds : ℚ) (st : SupervisorState)
  deriving DecidableEq

/-- The state the loop continues with, if it continues. -/
def SupervisorOutcome.stateAfter : SupervisorOutcome → Option SupervisorState
  | .exitProcess _ _ => none
  | .continueAfter _ st => some st

/-- The sleep performed before the next attempt, if the loop continues. -/
def SupervisorOutcome.sleepOf : SupervisorOutcome → Option ℚ
  | .exitProcess _ _ => none
  | .continueAfter s _ => some s

/-- One character list starts with another. -/
def startsWith : List Char → List Char → Bool
  | [], _ => true
  | _ :: _, [] => false
  | p :: ps, c :: cs => p = c && startsWith ps cs

/-- Digit run at the head of a character list (the greedy `\d+`). -/
def digitRun (cs : List Char) : List Char := cs.takeWhile Char.isDigit

/-- Value of a digit run, as `int()` would parse it. -/
def digitsToNat (cs : List Char) : Nat :=
  cs.foldl (fun acc c => acc * 10 + (c.toNat - '0'.toNat)) 0

/-- Try to match `Wait (\d+) seconds` at the start of `s`; on success
return the value of the digit group. -/
def waitMatchAt (s : List Char) : Option Nat :=
  if startsWith "Wait ".data s then
    let rest := s.drop 5
    let ds := digitRun rest
    if ds ≠ [] && startsWith " seconds".data (rest.drop ds.length) then
      some (digitsToNat ds)
    else none
  else none

/-- `re.search(r'Wait (\d+) seconds', s)`: find the leftmost position
where `"Wait "` is followed by one or more digits followed by
`" seconds"`, and return the value of the digit group. -/
def findWaitMatch : List Char → Option Nat
  | [] => none
  | c :: cs =>
    match waitMatchAt (c :: cs) with
    | some n => some n
    | none => findWaitMatch cs

/-- The rate-limit wait parser of `TunnelClient.run` (close code 4008
branch): default 60 seconds, overridden by the first
`"Wait <N> seconds"` match in the close reason. -/
def parseWaitSeconds : Option String → Nat
  | none => 60
  | some s =>
    match findWaitMatch s.data with
    | some n => n
    | none => 60

/-- One iteration of the reconnect loop of `TunnelClient.run`, from the
caught exception onward:

* `duration` is `time.time() - connection_start`;
* the failure counter is updated from the duration (`> 10` resets,
  otherwise increments) before any close-code handling;
* close code 4001 or 403 prints the auth banner and calls `sys.exit(1)`
  (the 403 case is unreachable in the program — a pre-upgrade reject
  arrives as the builtin `ConnectionError`, i.e. as `otherError`; see
  `preUpgradeRejectEvent`);
* close code 4008 sleeps the parsed wait and resets `sleep_time` to
  `min_sleep`;
* anything else sleeps `sleep_time * (1 + jitter)` (where `jitter` is
  the `random.uniform(0, 0.3)` draw) and doubles `sleep_time` up to
  `max_sleep`. The generic `except Exception` branch does the same,
  with no close-code handling. -/
def runIteration (st : SupervisorState) (ev : TermEvent)
    (duration jitter : ℚ) : SupervisorOutcome :=
  match ev with
  | .wsClosed code reason =>
    let cf : Nat := if 10 < duration then 0 else st.consecutive_failures + 1
    if code = some 4001 ∨ code = some 403 then
      .exitProcess 1 true
    else if code = some 4008 then
      .continueAfter (parseWaitSeconds reason : ℚ) ⟨cf, minSleep⟩
    else
      .continueAfter (st.sleep_time * (1 + jitter))
        ⟨cf, min (st.sleep_time * 2) maxSleep⟩
  | .otherError =>
    let cf : Nat := if 10 < duration then 0 else st.consecutive_failures + 1
    .continueAfter (st.sleep_time * (1 + jitter))
      ⟨cf, min (st.sleep_time * 2) maxSleep⟩

set_option linter.unusedVariables false in
/-- The connect step of `TunnelClient._connect_and_run`: any exception
from `connect_with_headers` — including a pre-upgrade HTTP rejection
(`InvalidStatus` carrying a status code such as 403) — is re-raised as
the builtin `ConnectionError` with a message string, via
`raise ConnectionError(...) from e`.  The builtin `ConnectionError` is
neither `ConnectionClosed` nor `InvalidStatus`, so it lands in
`run()`'s generic `except Exception` branch: as a supervisor event, a
pre-upgrade rejection is `otherError` whatever its status code. -/
def preUpgradeRejectEvent (status : Int) : TermEvent := .otherError

end Cyberdriver

namespace Cyberdriver

/-! ### Claims C1, C2, C6 -/

/-- C1 (counterexample): with `consecutive_failures = 2` and
`sleep_time = 4`, a rate-limit close (code 4008, reason
"Wait 12 seconds") after a 1-second session sleeps the parsed 12 seconds
but leaves the state at `⟨3, 1⟩`: the failure counter was incremented
(2 → 3) and the next backoff sleep value was reset to the minimum
(4 → 1), contradicting "both unchanged from before the rate-limit
close". -/
theorem rate_limit_changes_state :
    runIteration ⟨2, 4⟩ (.wsClosed (some 4008) (some "Wait 12 seconds")) 1 0
      = .continueAfter 12 ⟨3, 1⟩
    ∧ (3 : Nat) ≠ 2 ∧ (1 : ℚ) ≠ 4 := by
  refine ⟨?_, by decide, by norm_num⟩
  decide

/-- C1 (amended): on close code 4008 the supervisor sleeps exactly the
number of seconds parsed from the reason (60 when no
`"Wait <N> seconds"` match exists, e.g. for an absent reason or one
without the pattern; 12 for "Wait 12 seconds"), then continues — but the
failure counter is still updated by the duration rule (reset if the
session lasted more than 10 s, incremented otherwise) and the next
backoff sleep value is reset to the minimum 1 s. -/
theorem rate_limit_sleeps_parsed_wait (st : SupervisorState)
    (code : Option Int) (reason : Option String) (duration jitter : ℚ)
    (h : code = some 4008) :
    runIteration st (.wsClosed code reason) duration jitter
      = .continueAfter (parseWaitSeconds reason : ℚ)
          ⟨(if 10 < duration then 0 else st.consecutive_failures + 1),
            minSleep⟩
    ∧ parseWaitSeconds (some "Wait 12 seconds") = 12
    ∧ parseWaitSeconds none = 60
    ∧ parseWaitSeconds (some "please hold") = 60 := by
  subst h
  refine ⟨?_, by decide, by decide, by decide⟩
  simp [runIteration]

/-- Witness for `rate_limit_sleeps_parsed_wait` at a concrete input. -/
theorem rate_limit_sleeps_parsed_wait_witness :
    runIteration ⟨7, 8⟩ (.wsClosed (some 4008) (some "Wait 12 seconds")) 3 0
      = .continueAfter (parseWaitSeconds (some "Wait 12 seconds") : ℚ)
          ⟨(if 10 < (3:ℚ) then 0 else 7 + 1), minSleep⟩ :=
  (rate_limit_sleeps_parsed_wait ⟨7, 8⟩ (some 4008)
    (some "Wait 12 seconds") 3 0 rfl).1

/-- C2 (counterexample): a session that terminated with a normal close
(code 1000) after 20 s — a long-lived connection (≥ 10 s) — resets the
failure counter to 0 as claimed, but the next backoff sleep value is
`min(8 * 2, 16) = 16`, not the minimum 1 s: the backoff is not restarted
from the minimum on long-lived sessions. -/
theorem long_session_keeps_backoff :
    (runIteration ⟨5, 8⟩ (.wsClosed (some 1000) none) 20 0).stateAfter
      = some ⟨0, 16⟩
    ∧ (16 : ℚ) ≠ minSleep := by
  constructor
  · simp only [runIteration, SupervisorOutcome.stateAfter, maxSleep]
    norm_num
  · rw [minSleep]; norm_num

/-- C2 (amended): for every termination the supervisor retries after
(not an auth exit), the failure counter is reset to 0 when the session
lasted strictly more than 10 s and incremented by 1 otherwise (at
exactly 10 s it increments); the next backoff sleep value is
`min(2 * previous, 16)` — it restarts from the minimum only after a
rate-limit wait, never because the session was long-lived. -/
theorem duration_rule_updates_failures (st : SupervisorState)
    (code : Option Int) (reason : Option String) (duration jitter : ℚ)
    (h1 : code ≠ some 4001) (h2 : code ≠ some 403) :
    (runIteration st (.wsClosed code reason) duration jitter).stateAfter
      = some ⟨(if 10 < duration then 0 else st.consecutive_failures + 1),
          (if code = some 4008 then minSleep
           else min (st.sleep_time * 2) maxSleep)⟩
    ∧ (runIteration st .otherError duration jitter).stateAfter
      = some ⟨(if 10 < duration then 0 else st.consecutive_failures + 1),
          min (st.sleep_time * 2) maxSleep⟩ := by
  constructor
  · by_cases h8 : code = some 4008 <;>
      simp [runIteration, h1, h2, h8, SupervisorOutcome.stateAfter]
  · simp [runIteration, SupervisorOutcome.stateAfter]

/-- Witness for `duration_rule_updates_failures` at a concrete input. -/
theorem duration_rule_updates_failures_witness :
    (runIteration ⟨5, 8⟩ (.wsClosed (some 1006) none) 2 0).stateAfter
      = some ⟨(if 10 < (2:ℚ) then 0 else 5 + 1),
          (if (some 1006 : Option Int) = some 4008 then minSleep
           else min ((8:ℚ) * 2) maxSleep)⟩ :=
  (duration_rule_updates_failures ⟨5, 8⟩ (some 1006) none 2 0
    (by decide) (by decide)).1

/-- C6 (counterexample): an HTTP 403 rejected before the WebSocket
upgrade reaches the supervisor as the builtin `ConnectionError`
(`preUpgradeRejectEvent 403`), not as a `wsClosed` event: after a
1-second attempt from the initial state ⟨0, 1⟩ the iteration retries —
it sleeps 1 s and continues with state ⟨1, 2⟩ — and does not exit the
process, contradicting "does not retry … exits with exit code 1" for
the 403 half of the claim. -/
theorem pre_upgrade_403_retries :
    runIteration ⟨0, 1⟩ (preUpgradeRejectEvent 403) 1 0
      = .continueAfter 1 ⟨1, 2⟩
    ∧ runIteration ⟨0, 1⟩ (preUpgradeRejectEvent 403) 1 0
      ≠ .exitProcess 1 true := by
  have h : runIteration ⟨0, 1⟩ (preUpgradeRejectEvent 403) 1 0
      = .continueAfter 1 ⟨1, 2⟩ := by
    simp only [preUpgradeRejectEvent, runIteration, maxSleep]
    norm_num [min_def]
  exact ⟨h, by rw [h]; exact fun hc => SupervisorOutcome.noConfusion hc⟩

/-- C6 (amended): a session termination with WebSocket close code 4001
(raised as `ConnectionClosed` from the message loop, which does reach
the close-code handler) is never retried: the supervisor prints the
"Authentication Failed" banner and exits the process with exit code 1.
An HTTP 403 rejected before the upgrade, however, never reaches that
handler: the connect step re-raises every connect failure as the
builtin `ConnectionError`, so the generic exception branch retries it
with the usual backoff instead of exiting — as it does for every
pre-upgrade rejection status. -/
theorem auth_close_4001_exits_but_403_reject_retries
    (st : SupervisorState) (code : Option Int) (reason : Option String)
    (status : Int) (duration jitter : ℚ)
    (h : code = some 4001) :
    runIteration st (.wsClosed code reason) duration jitter
      = .exitProcess 1 true
    ∧ runIteration st (preUpgradeRejectEvent status) duration jitter
      = .continueAfter (st.sleep_time * (1 + jitter))
          ⟨(if 10 < duration then 0 else st.consecutive_failures + 1),
            min (st.sleep_time * 2) maxSleep⟩ := by
  constructor
  · simp [runIteration, h]
  · rfl

/-- Witness for `auth_close_4001_exits_but_403_reject_retries` at a
concrete input. -/
theorem auth_close_4001_exits_but_403_reject_retries_witness :
    runIteration ⟨0, 1⟩ (.wsClosed (some 4001) (some "invalid secret")) 2 0
      = .exitProcess 1 true
    ∧ runIteration ⟨0, 1⟩ (preUpgradeRejectEvent 403) 2 0
      = .continueAfter ((1 : ℚ) * (1 + 0))
          ⟨(if 10 < (2 : ℚ) then 0 else 0 + 1), min ((1 : ℚ) * 2) maxSleep⟩ :=
  auth_close_4001_exits_but_403_reject_retries ⟨0, 1⟩ (some 4001)
    (some "invalid secret") 403 2 0 rfl

/-! ## Receive loop: `TunnelClient._connect_and_run`

The `async for message in websocket` loop keeps two local variables,
`request_meta` (an `Option`, `None` initially) and `body_buffer` (a
`bytearray`).  Text messages are either the literal `"end"` or are
passed to `json.loads`; binary messages extend the buffer.  A
`json.loads` failure propagates out of the loop and terminates the
session (the `async with websocket` context then performs a
client-initiated close).
-/

/-- A decoded request meta (the JSON object of a text frame):
`{requestId, method, path, query, headers}`. -/
structure RequestMeta where
  requestId : String
  method : String
  path : String
  query : String
  headers : List (String × String)
  deriving DecidableEq

/-- One incoming WebSocket message, partitioned by how the loop treats
its text: the literal `"end"`, a text frame whose JSON parses to a
request meta, a text frame whose JSON parsing raises, or a binary body
chunk. -/
inductive TunnelMsg where
  | endMsg
  | metaMsg (m : RequestMeta)
  | badText
  | chunk (b : List Nat)
  deriving DecidableEq

/-- Why the receive loop terminated abnormally: the `json.loads`
exception escaping the loop. -/
inductive TermCause where
  | jsonError
  deriving DecidableEq

/-- The loop's mutable state: `request_meta` and `body_buffer`. -/
structure LoopState where
  request_meta : Option RequestMeta
  body_buffer : List Nat
  deriving DecidableEq

/-- An observable action of the loop: a complete request handed to
`_forward_request` / `_send_response`. -/
inductive LoopEvent where
  | dispatched (m : RequestMeta) (body : List Nat)
  deriving DecidableEq

/-- One step of the receive loop on one message:

* text `"end"` with an open meta dispatches the assembled request and
  resets both variables; `"end"` with no open meta does nothing;
* any other text that parses replaces `request_meta` and clears the
  buffer (`body_buffer.clear()`);
* any other text that fails to parse raises, terminating the session;
* a binary message extends the buffer. -/
def stepMsg (st : LoopState) :
    TunnelMsg → Except TermCause (LoopState × List LoopEvent)
  | .endMsg =>
    match st.request_meta with
    | some m => .ok (⟨none, []⟩, [.dispatched m st.body_buffer])
    | none => .ok (st, [])
  | .metaMsg m => .ok (⟨some m, []⟩, [])
  | .badText => .error .jsonError
  | .chunk b => .ok (⟨st.request_meta, st.body_buffer ++ b⟩, [])

/-- The receive loop over a finite message sequence, accumulating the
dispatched requests in order. -/
def runLoop (st : LoopState) :
    List TunnelMsg → Except TermCause (LoopState × List LoopEvent)
  | [] => .ok (st, [])
  | msg :: rest => do
    let (st', evs) ← stepMsg st msg
    let (st'', evs') ← runLoop st' rest
    pure (st'', evs ++ evs')

/-! ### Claim C3 -/

/-- C3 (counterexample): with a request open (meta `"r1"` received, no
`"end"` yet), a second parseable text message (meta `"r2"`) does not
terminate the session: the loop runs to completion successfully and the
new meta is processed as a fresh request — the subsequent `"end"`
dispatches `"r2"` (with an empty body), while `"r1"` is silently
dropped. -/
theorem open_request_new_meta_not_fatal :
    runLoop ⟨none, []⟩
      [.metaMsg ⟨"r1", "GET", "/a", "", []⟩,
       .metaMsg ⟨"r2", "GET", "/b", "", []⟩,
       .endMsg]
      = .ok (⟨none, []⟩, [.dispatched ⟨"r2", "GET", "/b", "", []⟩ []]) := by
  rfl

/-- C3 (amended): a text message that parses as JSON arriving while a
request is open is not treated as a protocol violation: the session
continues, the open request's meta and buffered body are discarded, and
the new meta starts a fresh request.  Only a text message whose JSON
parsing fails terminates the session. -/
theorem new_meta_replaces_open_request (st : LoopState) (m : RequestMeta) :
    stepMsg st (.metaMsg m) = .ok (⟨some m, []⟩, [])
    ∧ stepMsg st .badText = .error .jsonError := by
  constructor <;> rfl

/-! ## Response encoder: `TunnelClient._send_response`

The response dict assembled by `_forward_request`:
`{"status": ..., "headers": ..., "body": ...}`. -/

/-- A collected HTTP response: status, headers, body bytes. -/
structure Resp where
  status : Int
  headers : List (String × String)
  body : List Nat
  deriving DecidableEq

/-- One outgoing WebSocket frame, as `_send_response` emits them: the
JSON-encoded response meta (`{requestId, status, headers}`), a binary
body chunk, or the literal text `"end"`. -/
inductive OutFrame where
  | meta (requestId : String) (status : Int) (headers : List (String × String))
  | chunk (b : List Nat)
  | endMarker
  deriving DecidableEq

/-- Is this frame a response meta? -/
def OutFrame.isMeta : OutFrame → Bool
  | .meta _ _ _ => true
  | _ => false

/-- Is this frame the `"end"` marker? -/
def OutFrame.isEnd : OutFrame → Bool
  | .endMarker => true
  | _ => false

/-- The chunking loop of `_send_response`:
`for i in range(0, len(body), 16384): chunk = body[i:i+16384]`
(`chunk_size = 16 * 1024`; the `if body:` guard makes the empty body
produce no chunks, as the empty `range` would anyway). -/
def chunkBody : List Nat → List (List Nat)
  | [] => []
  | a :: rest =>
    ((a :: rest).take 16384) :: chunkBody ((a :: rest).drop 16384)
termination_by l => l.length
decreasing_by
  simp only [List.length_drop]
  exact Nat.sub_lt (by simp) (by norm_num)

/-- `TunnelClient._send_response`: one meta frame (with the request's
`requestId`), then the body chunks in order, then `"end"`. -/
def sendResponse (req : RequestMeta) (resp : Resp) : List OutFrame :=
  OutFrame.meta req.requestId resp.status resp.headers ::
    ((chunkBody resp.body).map OutFrame.chunk ++ [OutFrame.endMarker])

/-! ### Claim C7 -/

theorem chunkBody_flatten (l : List Nat) : (chunkBody l).flatten = l := by
  induction l using chunkBody.induct with
  | case1 => simp [chunkBody]
  | case2 a rest ih =>
    rw [chunkBody, List.flatten_cons, ih, List.take_append_drop]

theorem chunkBody_le (l : List Nat) :
    ∀ c ∈ chunkBody l, c.length ≤ 16384 := by
  induction l using chunkBody.induct with
  | case1 => intro c hc; simp [chunkBody] at hc
  | case2 a rest ih =>
    intro c hc
    rw [chunkBody, List.mem_cons] at hc
    rcases hc with h | h
    · subst h
      simp [List.length_take]
    · exact ih c h

theorem chunkBody_boundary (l : List Nat) (h : l.length = 16385) :
    (chunkBody l).map List.length = [16384, 1] := by
  match l with
  | [] => simp at h
  | a :: rest =>
    have hd : ((a :: rest).drop 16384).length = 1 := by
      rw [List.length_drop, h]
    obtain ⟨b, hb⟩ := List.length_eq_one.mp hd
    rw [chunkBody, hb]
    have ht : ((a :: rest).take 16384).length = 16384 := by
      rw [List.length_take, h]; omega
    have h1 : chunkBody [b] = [[b]] := by
      rw [chunkBody]; simp [chunkBody]
    rw [h1]
    simp only [List.length_cons] at h
    simp [ht]
    omega

theorem filter_isMeta_map_chunk (cs : List (List Nat)) :
    (cs.map OutFrame.chunk).filter OutFrame.isMeta = [] := by
  induction cs with
  | nil => rfl
  | cons c cs ih => simp [OutFrame.isMeta, ih]

theorem filter_isEnd_map_chunk (cs : List (List Nat)) :
    (cs.map OutFrame.chunk).filter OutFrame.isEnd = [] := by
  induction cs with
  | nil => rfl
  | cons c cs ih => simp [OutFrame.isEnd, ih]

/-- C7: for every response sent back over the tunnel, the frame sequence
is exactly one meta frame first — carrying the triggering request's
`requestId` — then the body split into binary chunks of at most 16384
bytes whose in-order concatenation is the body, then exactly one `"end"`
frame.  An empty body yields zero binary frames, and a 16385-byte body
yields two chunks of sizes 16384 and 1. -/
theorem send_response_framing (req : RequestMeta) (resp : Resp) :
    sendResponse req resp
      = OutFrame.meta req.requestId resp.status resp.headers ::
          ((chunkBody resp.body).map OutFrame.chunk ++ [OutFrame.endMarker])
    ∧ (sendResponse req resp).filter OutFrame.isMeta
        = [OutFrame.meta req.requestId resp.status resp.headers]
    ∧ (sendResponse req resp).filter OutFrame.isEnd = [OutFrame.endMarker]
    ∧ (∀ c ∈ chunkBody resp.body, c.length ≤ 16384)
    ∧ (chunkBody resp.body).flatten = resp.body
    ∧ (resp.body = [] → chunkBody resp.body = [])
    ∧ (resp.body.length = 16385 →
        (chunkBody resp.body).map List.length = [16384, 1]) := by
  refine ⟨rfl, ?_, ?_, chunkBody_le resp.body, chunkBody_flatten resp.body,
    ?_, chunkBody_boundary resp.body⟩
  · simp [sendResponse, List.filter_append, filter_isMeta_map_chunk,
      OutFrame.isMeta]
  · simp [sendResponse, List.filter_append, filter_isEnd_map_chunk,
      OutFrame.isEnd]
  · intro h; rw [h, chunkBody]

/-- Witness for `send_response_framing`: the 16385-byte boundary case at
a concrete request/response. -/
theorem send_response_framing_witness :
    (chunkBody (List.replicate 16385 0)).map List.length = [16384, 1] :=
  (send_response_framing ⟨"r1", "GET", "/ping", "", []⟩
    ⟨200, [], List.replicate 16385 0⟩).2.2.2.2.2.2
    (by simp only [List.length_replicate])

/-! ## Idempotency cache and dispatch:
`TunnelClient._cleanup_idempotency_cache` / `TunnelClient._forward_request`

`self._idempotency_cache` is a `Dict[str, Tuple[float, dict]]`; it is
modelled as an insertion-ordered association list with unique keys
(CPython dict semantics).  `time.time()` values are rationals.
-/

/-- One cache entry: `key -> (timestamp, response)`. -/
structure Entry where
  key : String
  ts : ℚ
  resp : Resp
  deriving DecidableEq

/-- The idempotency cache, in dict insertion order. -/
abbrev Cache := List Entry

/-- `TunnelClient.IDEMPOTENCY_CACHE_TTL` (60 seconds). -/
def IDEMPOTENCY_CACHE_TTL : ℚ := 60

/-- `TunnelClient.IDEMPOTENCY_CACHE_MAX_SIZE` (1000 entries). -/
def IDEMPOTENCY_CACHE_MAX_SIZE : Nat := 1000

/-- Dict lookup `cache[key]` / `key in cache` (keys are unique, so the
first match is the match). -/
def cacheFind (k : String) (c : Cache) : Option Entry :=
  c.find? (fun e => decide (e.key = k))

/-- Dict assignment `cache[key] = (timestamp, response)`: replaces the
existing entry in place, or appends a new one. -/
def cacheInsert (c : Cache) (k : String) (t : ℚ) (r : Resp) : Cache :=
  match c with
  | [] => [⟨k, t, r⟩]
  | e :: rest =>
    if e.key = k then ⟨k, t, r⟩ :: rest else e :: cacheInsert rest k t r

/-- `TunnelClient._cleanup_idempotency_cache`: drop entries with
`now - timestamp > TTL`; if still more than `MAX_SIZE` entries remain,
sort by timestamp (Python `sorted` is stable, as is `mergeSort`) and
remove the oldest `len // 5` (20%) by key. -/
def cleanupCache (now : ℚ) (c : Cache) : Cache :=
  let live := c.filter (fun e => decide (¬ now - e.ts > IDEMPOTENCY_CACHE_TTL))
  if IDEMPOTENCY_CACHE_MAX_SIZE < live.length then
    let sorted := live.mergeSort (fun a b => decide (a.ts ≤ b.ts))
    let toRemove := (sorted.take (live.length / 5)).map Entry.key
    live.filter (fun e => decide (e.key ∉ toRemove))
  else live

/-- ASCII lowercasing of one character (`str.lower` on the header names
used here, which are ASCII). -/
def lowerChar (c : Char) : Char :=
  if 'A' ≤ c ∧ c ≤ 'Z' then Char.ofNat (c.toNat + 32) else c

/-- `str.lower()` (ASCII). -/
def pyLower (s : String) : String := ⟨s.data.map lowerChar⟩

/-- ASCII uppercasing of one character. -/
def upperChar (c : Char) : Char :=
  if 'a' ≤ c ∧ c ≤ 'z' then Char.ofNat (c.toNat - 32) else c

/-- `str.upper()` (ASCII). -/
def pyUpper (s : String) : String := ⟨s.data.map upperChar⟩

/-- Case-insensitive scan of the request headers for
`X-Idempotency-Key` (`key.lower() == "x-idempotency-key"`); the first
matching header's value wins. -/
def findIdemKey : List (String × String) → Option String
  | [] => none
  | (k, v) :: rest =>
    if pyLower k = "x-idempotency-key" then some v else findIdemKey rest

/-- Bytes of a Python string (`str.encode`). -/
def stringBytes (s : String) : List Nat := s.toUTF8.toList.map UInt8.toNat

/-- What the `try` block around the loopback HTTP call produces: either
the local origin's streamed response, or a transport-level exception. -/
inductive OriginOutcome where
  | responds (r : Resp)
  | fails (msg : String)

/-- Collecting the origin result: a transport error becomes a synthetic
`500` with a plain-text body holding the error string. -/
def originResult : OriginOutcome → Resp
  | .responds r => r
  | .fails msg => ⟨500, [("content-type", "text/plain")], stringBytes msg⟩

/-- `json.dumps` of the empty-error-body placeholder dict. -/
def placeholderJson (status : Int) (method path : String) : String :=
  "\x7b\"detail\": \"Cyberdriver local API returned an error with an empty body\", \"status\": "
    ++ toString status ++ ", \"method\": \"" ++ method ++ "\", \"path\": \""
    ++ path ++ "\"\x7d"

/-- Dict assignment on a header map. -/
def setHeader (hs : List (String × String)) (k v : String) :
    List (String × String) :=
  match hs with
  | [] => [(k, v)]
  | (k', v') :: rest =>
    if k' = k then (k, v) :: rest else (k', v') :: setHeader rest k v

/-- The empty-error-body enrichment of `_forward_request`: a status
≥ 400 with an empty body gets a small JSON placeholder body and a
`content-type: application/json` header. -/
def enrich (method path : String) (r : Resp) : Resp :=
  if 400 ≤ r.status ∧ r.body = [] then
    ⟨r.status, setHeader r.headers "content-type" "application/json",
      stringBytes (placeholderJson r.status method path)⟩
  else r

/-- The observable side effects of one `_forward_request` call:
whether `keepalive_manager.wait_until_idle()` was awaited, whether
`keepalive_manager.record_activity()` was called on the dispatch path,
and how many times the loopback origin was invoked. -/
structure FwdEffects where
  waited : Bool
  recordedActivity : Bool
  forwarded : Nat
  deriving DecidableEq

/-- The non-cached path of `_forward_request`: wait for the keepalive
manager to be idle and record activity (when a manager is attached),
invoke the loopback origin, enrich an empty error body, and — when an
idempotency key was provided — store `(time.time(), result)` in the
cache. `tEnd` is the `time.time()` of the store. -/
def forwardMiss (hasKeepalive : Bool) (meta : RequestMeta)
    (key? : Option String) (c : Cache) (tEnd : ℚ) (origin : OriginOutcome) :
    Resp × Cache × FwdEffects :=
  let r := enrich (pyUpper meta.method) meta.path (originResult origin)
  let c' := match key? with
    | some k => cacheInsert c k tEnd r
    | none => c
  (r, c', ⟨hasKeepalive, hasKeepalive, 1⟩)

set_option linter.unusedVariables false in
/-- `TunnelClient._forward_request` (cache-relevant behavior): when the
headers carry an idempotency key, first sweep the cache at `now`
(`time.time()` of the lookup), then return the cached response
unchanged if a live entry (strictly younger than the TTL) exists —
without waiting for the keepalive manager, recording activity, or
invoking the origin; otherwise fall through to the forward path. -/
def forwardRequest (hasKeepalive : Bool) (meta : RequestMeta)
    (body : List Nat) (cache : Cache) (now tEnd : ℚ)
    (origin : OriginOutcome) : Resp × Cache × FwdEffects :=
  match findIdemKey meta.headers with
  | some k =>
    let c1 := cleanupCache now cache
    match cacheFind k c1 with
    | some e =>
      if now - e.ts < IDEMPOTENCY_CACHE_TTL then
        (e.resp, c1, ⟨false, false, 0⟩)
      else
        forwardMiss hasKeepalive meta (some k) c1 tEnd origin
    | none => forwardMiss hasKeepalive meta (some k) c1 tEnd origin
  | none => forwardMiss hasKeepalive meta none cache tEnd origin

/-! ### Claim C9 -/

/-- C9: a request whose `X-Idempotency-Key` matches a live cache entry
(strictly younger than the 60 s TTL after the sweep) is answered from
the cache immediately: the dispatch performs no `wait_until_idle`, does
not record activity, and does not invoke the Local Forwarder — the
cache-hit return sits before the keepalive-idle wait in the code. -/
theorem cache_hit_short_circuits (hk : Bool) (meta : RequestMeta)
    (body : List Nat) (cache : Cache) (now tEnd : ℚ)
    (origin : OriginOutcome) (k : String) (e : Entry)
    (h1 : findIdemKey meta.headers = some k)
    (h2 : cacheFind k (cleanupCache now cache) = some e)
    (h3 : now - e.ts < IDEMPOTENCY_CACHE_TTL) :
    forwardRequest hk meta body cache now tEnd origin
      = (e.resp, cleanupCache now cache, ⟨false, false, 0⟩) := by
  simp [forwardRequest, h1, h2, h3]

/-- Witness for `cache_hit_short_circuits` at a concrete input. -/
theorem cache_hit_short_circuits_witness :
    forwardRequest true ⟨"r2", "GET", "/a", "", [("X-Idempotency-Key", "abc")]⟩
      [] [⟨"abc", 0, ⟨200, [], [1, 2]⟩⟩] 10 10 (.responds ⟨200, [], []⟩)
      = (⟨200, [], [1, 2]⟩, cleanupCache 10 [⟨"abc", 0, ⟨200, [], [1, 2]⟩⟩],
          ⟨false, false, 0⟩) := by
  have hclean : cleanupCache 10 [⟨"abc", 0, ⟨200, [], [1, 2]⟩⟩]
      = [⟨"abc", 0, ⟨200, [], [1, 2]⟩⟩] := by
    unfold cleanupCache
    norm_num [IDEMPOTENCY_CACHE_TTL, IDEMPOTENCY_CACHE_MAX_SIZE]
  exact cache_hit_short_circuits true
    ⟨"r2", "GET", "/a", "", [("X-Idempotency-Key", "abc")]⟩
    [] [⟨"abc", 0, ⟨200, [], [1, 2]⟩⟩] 10 10 (.responds ⟨200, [], []⟩)
    "abc" ⟨"abc", 0, ⟨200, [], [1, 2]⟩⟩ (by decide)
    (by rw [hclean]; decide) (by norm_num [IDEMPOTENCY_CACHE_TTL])

/-- An entry found by key is in the cache. -/
theorem find_mem {k : String} {c : Cache} {e : Entry}
    (h : cacheFind k c = some e) : e ∈ c :=
  List.mem_of_find?_eq_some h

/-- An entry found by key has that key. -/
theorem find_key {k : String} {c : Cache} {e : Entry}
    (h : cacheFind k c = some e) : e.key = k := by
  have h' := List.find?_some h
  simpa using h'

/-- Case analysis on `_forward_request` when an idempotency key is
present: either a live cache hit (return the cached response, no
forward), or the forward path (no live hit existed; invoke the origin
once and store the enriched result under the key). -/
theorem forward_shape (hk : Bool) (meta : RequestMeta) (body : List Nat)
    (cache : Cache) (now tEnd : ℚ) (origin : OriginOutcome) (k : String)
    (h1 : findIdemKey meta.headers = some k) :
    (∃ e, cacheFind k (cleanupCache now cache) = some e
        ∧ now - e.ts < IDEMPOTENCY_CACHE_TTL
        ∧ forwardRequest hk meta body cache now tEnd origin
            = (e.resp, cleanupCache now cache, ⟨false, false, 0⟩))
    ∨ ((∀ e, cacheFind k (cleanupCache now cache) = some e →
          ¬ now - e.ts < IDEMPOTENCY_CACHE_TTL)
        ∧ forwardRequest hk meta body cache now tEnd origin
          = (enrich (pyUpper meta.method) meta.path (originResult origin),
              cacheInsert (cleanupCache now cache) k tEnd
                (enrich (pyUpper meta.method) meta.path (originResult origin)),
              ⟨hk, hk, 1⟩)) := by
  rcases hfind : cacheFind k (cleanupCache now cache) with _ | e
  · right
    refine ⟨fun e he => ?_, ?_⟩
    · exact Option.noConfusion he
    · simp only [forwardRequest, h1, hfind]
      simp [forwardMiss]
  · by_cases httl : now - e.ts < IDEMPOTENCY_CACHE_TTL
    · left
      refine ⟨e, rfl, httl, ?_⟩
      simp only [forwardRequest, h1, hfind, if_pos httl]
    · right
      refine ⟨fun e' he' => ?_, ?_⟩
      · obtain rfl := Option.some.inj he'
        exact httl
      · simp only [forwardRequest, h1, hfind, if_neg httl]
        simp [forwardMiss]


/-! ### Claim C5

A concrete family of cache states: `mkCache n` has `n` entries with
pairwise-distinct keys and timestamps `0, 1, …, n-1` (oldest first), all
live at time 60. -/

/-- Key of the `i`-th synthetic entry (`i` repetitions of `'a'`). -/
def mkKey (n : Nat) : String := ⟨List.replicate n 'a'⟩

/-- A fixed cached response. -/
def sampleResp : Resp := ⟨200, [], []⟩

/-- `n` cache entries, oldest first. -/
def mkCache : Nat → Cache
  | 0 => []
  | n + 1 => mkCache n ++ [⟨mkKey n, (n : ℚ), sampleResp⟩]

theorem mkCache_length (n : Nat) : (mkCache n).length = n := by
  induction n with
  | zero => rfl
  | succ n ih => simp [mkCache, ih]

theorem mem_mkCache {e : Entry} {n : Nat} (h : e ∈ mkCache n) :
    ∃ i, i < n ∧ e = ⟨mkKey i, (i : ℚ), sampleResp⟩ := by
  induction n with
  | zero => simp [mkCache] at h
  | succ n ih =>
    rw [mkCache, List.mem_append] at h
    rcases h with h | h
    · obtain ⟨i, hi, he⟩ := ih h
      exact ⟨i, Nat.lt_succ_of_lt hi, he⟩
    · simp only [List.mem_singleton] at h
      exact ⟨n, Nat.lt_succ_self n, h⟩

theorem mkKey_inj {i j : Nat} (h : mkKey i = mkKey j) : i = j := by
  have h' := congrArg (fun s => s.data.length) h
  simpa [mkKey] using h'

theorem mkKey_ne_b (i : Nat) : mkKey i ≠ "b" := by
  intro h
  have h' : List.replicate i 'a' = "b".data := congrArg String.data h
  have hb : "b".data = ['b'] := by decide
  rw [hb] at h'
  cases i with
  | zero => exact absurd h' (by decide)
  | succ n =>
    rw [List.replicate_succ] at h'
    rw [List.cons.injEq] at h'
    exact absurd h'.1 (by decide)

theorem mkCache_fresh (n : Nat) :
    ∀ e ∈ mkCache n, ¬ (60 : ℚ) - e.ts > IDEMPOTENCY_CACHE_TTL := by
  intro e he
  obtain ⟨i, _, rfl⟩ := mem_mkCache he
  simp only [IDEMPOTENCY_CACHE_TTL, not_lt, gt_iff_lt]
  have : (0 : ℚ) ≤ (i : ℚ) := Nat.cast_nonneg i
  linarith

theorem mkCache_nodup (n : Nat) : ((mkCache n).map Entry.key).Nodup := by
  induction n with
  | zero => simp [mkCache]
  | succ n ih =>
    rw [mkCache, List.map_append, List.nodup_append]
    refine ⟨ih, by simp, ?_⟩
    intro a ha hb
    simp only [List.map_cons, List.map_nil, List.mem_singleton] at hb
    subst hb
    obtain ⟨e, he, hk⟩ := List.mem_map.mp ha
    obtain ⟨i, hi, rfl⟩ := mem_mkCache he
    exact absurd (mkKey_inj hk) (Nat.ne_of_lt hi)

/-- The expiry sweep removes nothing when no entry is older than the
TTL, and the 20%-eviction branch does not run when at most
`MAX_SIZE` entries remain: the sweep is then the identity. -/
theorem cleanup_eq_self {now : ℚ} {c : Cache}
    (hfresh : ∀ e ∈ c, ¬ now - e.ts > IDEMPOTENCY_CACHE_TTL)
    (hlen : c.length ≤ IDEMPOTENCY_CACHE_MAX_SIZE) :
    cleanupCache now c = c := by
  have hf : c.filter (fun e => decide (¬ now - e.ts > IDEMPOTENCY_CACHE_TTL))
      = c :=
    List.filter_eq_self.mpr (fun e he => by simpa using hfresh e he)
  simp only [cleanupCache, hf]
  rw [if_neg (by omega)]

theorem find_mkCache_b (n : Nat) : cacheFind "b" (mkCache n) = none := by
  apply List.find?_eq_none.mpr
  intro e he
  obtain ⟨i, _, rfl⟩ := mem_mkCache he
  simpa using mkKey_ne_b i

/-- Inserting a key that is absent appends the entry. -/
theorem insert_fresh {c : Cache} {k : String} (h : ∀ e ∈ c, e.key ≠ k)
    (t : ℚ) (r : Resp) : cacheInsert c k t r = c ++ [⟨k, t, r⟩] := by
  induction c with
  | nil => rfl
  | cons e rest ih =>
    rw [cacheInsert, if_neg (h e (List.mem_cons_self e rest))]
    rw [ih (fun e' he' => h e' (List.mem_cons_of_mem e he'))]
    rfl

/-- The dispatch of a request with a fresh idempotency key `"b"`
against a cache at exactly capacity (1000 live entries), at time 60. -/
def fullCacheStep : Resp × Cache × FwdEffects :=
  forwardRequest false ⟨"r", "GET", "/a", "", [("X-Idempotency-Key", "b")]⟩
    [] (mkCache 1000) 60 60 (.responds ⟨200, [], [7]⟩)

/-- C5 (counterexample): handling a new-key request when the cache is at
capacity 1000 evicts nothing — every prior entry is still present — and
the cache afterwards holds 1001 entries (the new entry included),
contradicting both "at most 1000 entries" and "exactly the 200 oldest
entries are evicted". -/
theorem full_cache_insert_no_eviction :
    fullCacheStep.2.1.length = 1001
    ∧ (∀ e ∈ mkCache 1000, e ∈ fullCacheStep.2.1)
    ∧ (⟨"b", 60, ⟨200, [], [7]⟩⟩ : Entry) ∈ fullCacheStep.2.1 := by
  have hclean : cleanupCache 60 (mkCache 1000) = mkCache 1000 :=
    cleanup_eq_self (mkCache_fresh 1000)
      (by rw [mkCache_length]; norm_num [IDEMPOTENCY_CACHE_MAX_SIZE])
  have hkey : findIdemKey [("X-Idempotency-Key", "b")] = some "b" := by decide
  have hins : cacheInsert (mkCache 1000) "b" 60 ⟨200, [], [7]⟩
      = mkCache 1000 ++ [⟨"b", 60, ⟨200, [], [7]⟩⟩] := by
    apply insert_fresh
    intro e he
    obtain ⟨i, _, rfl⟩ := mem_mkCache he
    exact mkKey_ne_b i
  have henr : enrich (pyUpper "GET") "/a" ⟨200, [], [7]⟩ = ⟨200, [], [7]⟩ := by
    rw [show pyUpper "GET" = "GET" from by decide, enrich, if_neg (by norm_num)]
  have hstep : fullCacheStep
      = (⟨200, [], [7]⟩, mkCache 1000 ++ [⟨"b", 60, ⟨200, [], [7]⟩⟩],
          ⟨false, false, 1⟩) := by
    rcases forward_shape false
        ⟨"r", "GET", "/a", "", [("X-Idempotency-Key", "b")]⟩
        [] (mkCache 1000) 60 60 (.responds ⟨200, [], [7]⟩) "b" hkey with
      ⟨e, hfind, _, _⟩ | ⟨_, heq⟩
    · rw [hclean, find_mkCache_b 1000] at hfind
      exact Option.noConfusion hfind
    · rw [fullCacheStep, heq, hclean, originResult, henr, hins]
  have h21 : fullCacheStep.2.1 = mkCache 1000 ++ [⟨"b", 60, ⟨200, [], [7]⟩⟩] :=
    congrArg (fun x => x.2.1) hstep
  refine ⟨?_, ?_, ?_⟩
  · rw [h21, List.length_append, mkCache_length]
    norm_num
  · intro e he
    rw [h21]
    exact List.mem_append_left _ he
  · rw [h21]
    exact List.mem_append_right _ (List.mem_singleton.mpr rfl)

/-- C5 (amended): the 20% eviction runs in the pre-lookup sweep only
when the cache holds strictly more than 1000 live entries; handling a
new key at exactly capacity 1000 evicts nothing and leaves 1001 entries
(`full_cache_insert_no_eviction`), and the next keyed request's sweep
then evicts the `size / 5` oldest entries by timestamp (200 out of
1001): the sweep of an over-capacity cache with no expired entries keeps
`size - size / 5` entries, all from the original cache, and every
evicted entry is at least as old as every survivor. -/
theorem oversize_sweep_evicts_oldest_fifth (now : ℚ) (c : Cache)
    (hfresh : ∀ e ∈ c, ¬ now - e.ts > IDEMPOTENCY_CACHE_TTL)
    (hnodup : (c.map Entry.key).Nodup)
    (hlen : IDEMPOTENCY_CACHE_MAX_SIZE < c.length) :
    (cleanupCache now c).length = c.length - c.length / 5
    ∧ (∀ e' ∈ cleanupCache now c, e' ∈ c)
    ∧ (∀ e ∈ c, e ∉ cleanupCache now c →
        ∀ e' ∈ cleanupCache now c, e.ts ≤ e'.ts) := by
  have hf : c.filter (fun e => decide (¬ now - e.ts > IDEMPOTENCY_CACHE_TTL))
      = c :=
    List.filter_eq_self.mpr (fun e he => by simpa using hfresh e he)
  have hcleanup : cleanupCache now c
      = c.filter (fun e => decide (e.key ∉
          ((c.mergeSort (fun a b => decide (a.ts ≤ b.ts))).take
            (c.length / 5)).map Entry.key)) := by
    simp only [cleanupCache, hf]
    rw [if_pos hlen]
  set le := fun (a b : Entry) => decide (a.ts ≤ b.ts) with hle
  set s := c.mergeSort le with hs
  set m := c.length / 5 with hm
  set T := s.take m with hTdef
  set toRem := T.map Entry.key with htoRem
  set p := fun e : Entry => decide (e.key ∉ toRem) with hp
  set D := s.drop m with hDdef
  have hperm : s.Perm c := List.mergeSort_perm c le
  have hsorted : List.Pairwise (fun a b => le a b = true) s :=
    List.sorted_mergeSort
      (fun a b c hab hbc => by
        simp only [hle, decide_eq_true_eq] at hab hbc ⊢
        exact le_trans hab hbc)
      (fun a b => by
        simp only [hle, Bool.or_eq_true, decide_eq_true_eq]
        exact le_total a.ts b.ts)
      c
  have hnodupC : c.Nodup := List.Nodup.of_map Entry.key hnodup
  have hnodupS : s.Nodup := hperm.nodup_iff.mpr hnodupC
  have hTD : T ++ D = s := List.take_append_drop m s
  have hdisj : T.Disjoint D := by
    have hns := hnodupS
    rw [← hTD, List.nodup_append] at hns
    exact hns.2.2
  have hkeyT : ∀ x ∈ c, x.key ∈ toRem → x ∈ T := by
    intro x hx hk
    rw [htoRem] at hk
    obtain ⟨y, hyT, hky⟩ := List.mem_map.mp hk
    have hyC : y ∈ c :=
      hperm.subset (by rw [← hTD]; exact List.mem_append_left _ hyT)
    have hyx : y = x := List.inj_on_of_nodup_map hnodup hyC hx hky
    exact hyx ▸ hyT
  have hfT : List.filter p T = [] := by
    apply List.filter_eq_nil_iff.mpr
    intro x hxT
    simp only [hp, decide_eq_true_eq, Decidable.not_not]
    exact List.mem_map_of_mem _ hxT
  have hfD : List.filter p D = D := by
    apply List.filter_eq_self.mpr
    intro x hxD
    simp only [hp, decide_eq_true_eq]
    intro hk
    have hxC : x ∈ c :=
      hperm.subset (by rw [← hTD]; exact List.mem_append_right _ hxD)
    exact hdisj (hkeyT x hxC hk) hxD
  have hfS : List.filter p s = D := by
    rw [← hTD, List.filter_append, hfT, hfD, List.nil_append]
  have hlenRes : (List.filter p c).length = c.length - m := by
    have h1 : (List.filter p c).Perm (List.filter p s) := (hperm.filter p).symm
    rw [h1.length_eq, hfS, hDdef, List.length_drop, hperm.length_eq]
  refine ⟨by rw [hcleanup]; exact hlenRes, ?_, ?_⟩
  · intro e' he'
    rw [hcleanup, List.mem_filter] at he'
    exact he'.1
  · intro e he hnotin e' he'
    rw [hcleanup, List.mem_filter] at he'
    have hpe : ¬ p e = true := by
      intro hpe
      exact hnotin (by rw [hcleanup, List.mem_filter]; exact ⟨he, hpe⟩)
    have heT : e ∈ T := by
      apply hkeyT e he
      simpa [hp, decide_eq_true_eq, Decidable.not_not] using hpe
    have he'S : e' ∈ s := hperm.mem_iff.mpr he'.1
    have he'D : e' ∈ D := by
      rw [← hTD, List.mem_append] at he'S
      rcases he'S with h | h
      · exfalso
        have hk2 := he'.2
        simp only [hp, decide_eq_true_eq] at hk2
        exact hk2 (List.mem_map_of_mem _ h)
      · exact h
    have hpair := hsorted
    rw [← hTD, List.pairwise_append] at hpair
    have hle' := hpair.2.2 e heT e' he'D
    simpa [hle, decide_eq_true_eq] using hle'

/-- Witness for `oversize_sweep_evicts_oldest_fifth`: sweeping a
1001-entry live cache keeps 801 entries. -/
theorem oversize_sweep_evicts_oldest_fifth_witness :
    (cleanupCache 60 (mkCache 1001)).length = 801 := by
  have h := (oversize_sweep_evicts_oldest_fifth 60 (mkCache 1001)
    (mkCache_fresh 1001) (mkCache_nodup 1001)
    (by rw [mkCache_length]; norm_num [IDEMPOTENCY_CACHE_MAX_SIZE])).1
  rw [mkCache_length] at h
  norm_num at h
  exact h

/-! ### Claim C4

Supporting lemmas about the cache operations. -/

theorem find_insert (c : Cache) (k : String) (t : ℚ) (r : Resp) :
    cacheFind k (cacheInsert c k t r) = some ⟨k, t, r⟩ := by
  induction c with
  | nil => simp [cacheFind, cacheInsert, List.find?]
  | cons e rest ih =>
    rw [cacheInsert]
    by_cases he : e.key = k
    · simp [he, cacheFind, List.find?]
    · rw [if_neg he, cacheFind,
        List.find?_cons_of_neg _ (by simp [he])]
      exact ih

theorem cleanup_sublist (now : ℚ) (c : Cache) :
    (cleanupCache now c).Sublist c := by
  rw [cleanupCache]
  split
  · exact (List.filter_sublist _).trans (List.filter_sublist _)
  · exact List.filter_sublist _

theorem keys_nodup_cleanup {c : Cache} (h : (c.map Entry.key).Nodup)
    (now : ℚ) : ((cleanupCache now c).map Entry.key).Nodup :=
  List.Nodup.sublist ((cleanup_sublist now c).map Entry.key) h

theorem mem_keys_insert {c : Cache} {k k' : String} {t : ℚ} {r : Resp}
    (h : k' ∈ (cacheInsert c k t r).map Entry.key) :
    k' ∈ c.map Entry.key ∨ k' = k := by
  induction c with
  | nil =>
    right
    simpa [cacheInsert] using h
  | cons e rest ih =>
    rw [cacheInsert] at h
    by_cases he : e.key = k
    · rw [if_pos he] at h
      rw [List.map_cons, List.mem_cons] at h
      rcases h with h | h
      · right; exact h
      · left; rw [List.map_cons, List.mem_cons]; right; exact h
    · rw [if_neg he] at h
      rw [List.map_cons, List.mem_cons] at h
      rcases h with h | h
      · left; rw [List.map_cons, List.mem_cons]; left; exact h
      · rcases ih h with h' | h'
        · left; rw [List.map_cons, List.mem_cons]; right; exact h'
        · right; exact h'

theorem keys_nodup_insert {c : Cache} (h : (c.map Entry.key).Nodup)
    (k : String) (t : ℚ) (r : Resp) :
    ((cacheInsert c k t r).map Entry.key).Nodup := by
  induction c with
  | nil => simp [cacheInsert]
  | cons e rest ih =>
    rw [cacheInsert]
    simp only [List.map_cons, List.nodup_cons] at h
    by_cases he : e.key = k
    · simp only [if_pos he, List.map_cons, List.nodup_cons]
      exact ⟨he ▸ h.1, h.2⟩
    · simp only [if_neg he, List.map_cons, List.nodup_cons]
      refine ⟨?_, ih h.2⟩
      intro hmem
      rcases mem_keys_insert hmem with h' | h'
      · exact h.1 h'
      · exact he h'

theorem length_insert_le (c : Cache) (k : String) (t : ℚ) (r : Resp) :
    (cacheInsert c k t r).length ≤ c.length + 1 := by
  induction c with
  | nil => simp [cacheInsert]
  | cons e rest ih =>
    rw [cacheInsert]
    by_cases he : e.key = k
    · simp [if_pos he]
    · simp only [if_neg he, List.length_cons]
      omega

theorem find_unique {c : Cache} (hnodup : (c.map Entry.key).Nodup)
    {e : Entry} {k : String} (hmem : e ∈ c) (hkey : e.key = k) :
    cacheFind k c = some e := by
  induction c with
  | nil => simp at hmem
  | cons x rest ih =>
    simp only [List.map_cons, List.nodup_cons] at hnodup
    rcases List.mem_cons.mp hmem with h | h
    · subst h
      simp [cacheFind, List.find?, hkey]
    · have hx : x.key ≠ k := by
        intro hxk
        have hm : e.key ∈ List.map Entry.key rest :=
          List.mem_map_of_mem Entry.key h
        rw [hkey, ← hxk] at hm
        exact hnodup.1 hm
      rw [cacheFind, List.find?_cons_of_neg _ (by simp [hx])]
      exact ih hnodup.2 h

/-- When the cache is within capacity, the sweep is just the expiry
filter (the eviction branch does not run). -/
theorem cleanup_small {c : Cache} (now : ℚ)
    (hlen : c.length ≤ IDEMPOTENCY_CACHE_MAX_SIZE) :
    cleanupCache now c
      = c.filter (fun e => decide (¬ now - e.ts > IDEMPOTENCY_CACHE_TTL)) := by
  rw [cleanupCache]
  rw [if_neg]
  simp only [not_lt]
  exact le_trans (List.length_filter_le _ _) hlen

/-- C4: if a request carrying idempotency key `k` (found under any
header-name casing) is forwarded to the origin and cached at time
`tI1`, then a second same-key request handled on the resulting cache,
with its lookup less than 60 s after the store, returns the
byte-identical first response and invokes the Local Forwarder zero
additional times; a replay whose lookup is 60 s or more past the store
invokes the origin again.  (The cache starts below capacity and with
unique keys, as the dict guarantees; "matched case-insensitively"
applies to the header name — the key value is compared exactly.) -/
theorem idempotent_replay
    (hk1 hk2 hk3 : Bool) (m1 m2 m3 : RequestMeta) (b1 b2 b3 : List Nat)
    (cache0 : Cache) (t1 tI1 t2 tI2 t3 tI3 : ℚ)
    (o1 o2 o3 : OriginOutcome) (k : String)
    (r1 : Resp) (c1 : Cache) (e1 : FwdEffects)
    (hnodup : (cache0.map Entry.key).Nodup)
    (hlen : cache0.length ≤ 999)
    (h1 : findIdemKey m1.headers = some k)
    (h2 : findIdemKey m2.headers = some k)
    (h3 : findIdemKey m3.headers = some k)
    (hfst : forwardRequest hk1 m1 b1 cache0 t1 tI1 o1 = (r1, c1, e1))
    (hfwd : e1.forwarded = 1)
    (hT2 : t2 - tI1 < IDEMPOTENCY_CACHE_TTL) :
    ((forwardRequest hk2 m2 b2 c1 t2 tI2 o2).1 = r1
      ∧ (forwardRequest hk2 m2 b2 c1 t2 tI2 o2).2.2.forwarded = 0)
    ∧ (IDEMPOTENCY_CACHE_TTL ≤ t3 - tI1 →
        (forwardRequest hk3 m3 b3 c1 t3 tI3 o3).2.2.forwarded = 1) := by
  -- The first call must have taken the forward path: a hit would have
  -- reported zero forwards.
  rcases forward_shape hk1 m1 b1 cache0 t1 tI1 o1 k h1 with
    ⟨e, _, _, heq⟩ | ⟨_, heq⟩
  · exfalso
    have h' : (r1, c1, e1)
        = (e.resp, cleanupCache t1 cache0,
            (⟨false, false, 0⟩ : FwdEffects)) := hfst.symm.trans heq
    have he1 : e1 = ⟨false, false, 0⟩ := congrArg (fun x => x.2.2) h'
    rw [he1] at hfwd
    simp at hfwd
  · have h' : (r1, c1, e1)
        = (enrich (pyUpper m1.method) m1.path (originResult o1),
            cacheInsert (cleanupCache t1 cache0) k tI1
              (enrich (pyUpper m1.method) m1.path (originResult o1)),
            (⟨hk1, hk1, 1⟩ : FwdEffects)) := hfst.symm.trans heq
    have hr1 : r1 = enrich (pyUpper m1.method) m1.path (originResult o1) :=
      congrArg Prod.fst h'
    have hc1 : c1 = cacheInsert (cleanupCache t1 cache0) k tI1
        (enrich (pyUpper m1.method) m1.path (originResult o1)) :=
      congrArg (fun x => x.2.1) h'
    -- The cache after the first call: unique keys, within capacity,
    -- and holding `(k, tI1, r1)`.
    have hkeys1 : (c1.map Entry.key).Nodup := by
      rw [hc1]
      exact keys_nodup_insert (keys_nodup_cleanup hnodup t1) k tI1 _
    have hlen1 : c1.length ≤ IDEMPOTENCY_CACHE_MAX_SIZE := by
      rw [hc1]
      have hs := (cleanup_sublist t1 cache0).length_le
      have hi := length_insert_le (cleanupCache t1 cache0) k tI1
        (enrich (pyUpper m1.method) m1.path (originResult o1))
      rw [IDEMPOTENCY_CACHE_MAX_SIZE]
      omega
    have hfind1 : cacheFind k c1 = some ⟨k, tI1, r1⟩ := by
      rw [hc1, hr1]
      exact find_insert _ k tI1 _
    have hmem1 : (⟨k, tI1, r1⟩ : Entry) ∈ c1 := find_mem hfind1
    -- The second call's sweep keeps that entry (it is not expired, and
    -- the eviction branch does not run below capacity).
    have hfind2 : cacheFind k (cleanupCache t2 c1) = some ⟨k, tI1, r1⟩ := by
      rw [cleanup_small t2 hlen1]
      apply find_unique
      · exact List.Nodup.sublist ((List.filter_sublist c1).map Entry.key)
          hkeys1
      · apply List.mem_filter.mpr
        refine ⟨hmem1, ?_⟩
        simp only [decide_eq_true_eq, gt_iff_lt, not_lt]
        have : ¬ IDEMPOTENCY_CACHE_TTL < t2 - tI1 := not_lt.mpr (le_of_lt hT2)
        exact not_lt.mp this
      · rfl
    constructor
    · -- Replay within the TTL: a cache hit.
      rcases forward_shape hk2 m2 b2 c1 t2 tI2 o2 k h2 with
        ⟨e', hfind', _, heq'⟩ | ⟨hnohit, _⟩
      · have he' : e' = ⟨k, tI1, r1⟩ := Option.some.inj (hfind'.symm.trans hfind2)
        rw [heq', he']
        exact ⟨rfl, rfl⟩
      · exact absurd hT2 (hnohit _ hfind2)
    · -- Replay at or past the TTL: the entry is stale, so no hit exists.
      intro h60
      rcases forward_shape hk3 m3 b3 c1 t3 tI3 o3 k h3 with
        ⟨e', hfind', httl', _⟩ | ⟨_, heq'⟩
      · exfalso
        have he'c1 : e' ∈ c1 := (cleanup_sublist t3 c1).subset (find_mem hfind')
        have he'key : e'.key = k := find_key hfind'
        have he'eq : e' = ⟨k, tI1, r1⟩ :=
          List.inj_on_of_nodup_map hkeys1 he'c1 hmem1 (by rw [he'key])
        rw [he'eq] at httl'
        exact absurd httl' (not_lt.mpr h60)
      · rw [heq']

/-- Witness for `idempotent_replay` at concrete inputs: first request at
time 0 against an empty cache, replay at time 10, stale replay at time
100. -/
theorem idempotent_replay_witness :
    ((forwardRequest false ⟨"r1", "POST", "/x", "", [("X-Idempotency-Key", "abc")]⟩
        [] [⟨"abc", 0, ⟨200, [], [5]⟩⟩] 10 10 (.responds ⟨404, [], [9]⟩)).1
        = ⟨200, [], [5]⟩
      ∧ (forwardRequest false ⟨"r1", "POST", "/x", "", [("X-Idempotency-Key", "abc")]⟩
          [] [⟨"abc", 0, ⟨200, [], [5]⟩⟩] 10 10
          (.responds ⟨404, [], [9]⟩)).2.2.forwarded = 0)
    ∧ (IDEMPOTENCY_CACHE_TTL ≤ (100 : ℚ) - 0 →
        (forwardRequest false ⟨"r1", "POST", "/x", "", [("X-Idempotency-Key", "abc")]⟩
          [] [⟨"abc", 0, ⟨200, [], [5]⟩⟩] 100 100
          (.responds ⟨404, [], [9]⟩)).2.2.forwarded = 1) :=
  idempotent_replay false false false
    ⟨"r1", "POST", "/x", "", [("X-Idempotency-Key", "abc")]⟩
    ⟨"r1", "POST", "/x", "", [("X-Idempotency-Key", "abc")]⟩
    ⟨"r1", "POST", "/x", "", [("X-Idempotency-Key", "abc")]⟩
    [] [] [] [] 0 0 10 10 100 100
    (.responds ⟨200, [], [5]⟩) (.responds ⟨404, [], [9]⟩)
    (.responds ⟨404, [], [9]⟩) "abc"
    ⟨200, [], [5]⟩ [⟨"abc", 0, ⟨200, [], [5]⟩⟩] ⟨false, false, 1⟩
    (by simp) (by simp) (by decide) (by decide) (by decide)
    (by decide) rfl (by norm_num [IDEMPOTENCY_CACHE_TTL])

/-! ## Manager constructors: `KeepAliveManager.__init__` and
`BlackScreenRecoveryManager.__init__`

The claims concern the clamping of the timing fields and the fact that
no later operation lowers them.  The mutating operations on a
`KeepAliveManager` (`record_activity`, the scheduler's post-action
cooldown, the remote activity/enable/disable endpoints) touch only
`enabled`, `last_activity_ts` and `_next_allowed_ts`.
-/

/-- The `KeepAliveManager` fields the claims are about. -/
structure KeepAliveState where
  enabled : Bool
  threshold_seconds : ℚ
  check_interval_seconds : ℚ
  last_activity_ts : ℚ
  next_allowed_ts : ℚ

/-- `KeepAliveManager.__init__(enabled, threshold_minutes=3.0,
check_interval_seconds=30.0, ...)`: `threshold_seconds =
max(10.0, threshold_minutes * 60.0)`, `check_interval_seconds =
max(5.0, check_interval_seconds)`; `now` is the constructor's
`time.time()`. -/
def keepAliveInit (enabled : Bool) (threshold_minutes : ℚ)
    (check_interval_seconds : ℚ) (now : ℚ) : KeepAliveState :=
  let threshold := max 10 (threshold_minutes * 60)
  { enabled := enabled
    threshold_seconds := threshold
    check_interval_seconds := max 5 check_interval_seconds
    last_activity_ts := now
    next_allowed_ts := now + threshold }

/-- `KeepAliveManager.record_activity`. -/
def recordActivity (st : KeepAliveState) (now : ℚ) : KeepAliveState :=
  { st with
    last_activity_ts := now
    next_allowed_ts := now + st.threshold_seconds }

/-- The scheduler's post-action cooldown (`run`'s `finally` block):
`_next_allowed_ts = time.time() + max(0, threshold + jitter)`. -/
def actionCooldown (st : KeepAliveState) (now jitter : ℚ) : KeepAliveState :=
  { st with next_allowed_ts := now + max 0 (st.threshold_seconds + jitter) }

/-- `POST /internal/keepalive/remote/activity`: marks activity with a
±7 s jitter applied backwards to `last_activity_ts`. -/
def remoteActivity (st : KeepAliveState) (now jitter : ℚ) : KeepAliveState :=
  { st with
    last_activity_ts := now - jitter
    next_allowed_ts := now - jitter + st.threshold_seconds }

/-- `POST /internal/keepalive/remote/enable` /
`.../disable`: flips `enabled`. -/
def setEnabled (st : KeepAliveState) (b : Bool) : KeepAliveState :=
  { st with enabled := b }

/-- The `BlackScreenRecoveryManager` fields the claims are about. -/
structure BlackScreenState where
  enabled : Bool
  check_interval_seconds : ℚ

/-- `BlackScreenRecoveryManager.__init__(enabled,
check_interval_seconds=30.0)`: disabled off Windows;
`check_interval_seconds = max(5.0, check_interval_seconds)`. -/
def blackScreenInit (isWindows : Bool) (enabled : Bool)
    (check_interval_seconds : ℚ) : BlackScreenState :=
  { enabled := if isWindows then enabled else false
    check_interval_seconds := max 5 check_interval_seconds }

/-! ### Claim C10 -/

/-- C10: every constructed `KeepAliveManager` satisfies
`threshold_seconds ≥ 10` and `check_interval_seconds ≥ 5`, and every
constructed `BlackScreenRecoveryManager` satisfies
`check_interval_seconds ≥ 5`, whatever values the caller supplies; and
none of the mutating operations (`record_activity`, the scheduler
cooldown, the remote activity/enable/disable endpoints) changes either
field, so the bounds persist. -/
theorem managers_clamp_intervals (enabled b : Bool)
    (threshold_minutes check_interval now jitter t : ℚ) (isWindows : Bool)
    (st : KeepAliveState) :
    10 ≤ (keepAliveInit enabled threshold_minutes check_interval now).threshold_seconds
    ∧ 5 ≤ (keepAliveInit enabled threshold_minutes check_interval now).check_interval_seconds
    ∧ 5 ≤ (blackScreenInit isWindows enabled check_interval).check_interval_seconds
    ∧ (recordActivity st now).threshold_seconds = st.threshold_seconds
    ∧ (recordActivity st now).check_interval_seconds = st.check_interval_seconds
    ∧ (actionCooldown st now jitter).threshold_seconds = st.threshold_seconds
    ∧ (actionCooldown st now jitter).check_interval_seconds = st.check_interval_seconds
    ∧ (remoteActivity st t jitter).threshold_seconds = st.threshold_seconds
    ∧ (remoteActivity st t jitter).check_interval_seconds = st.check_interval_seconds
    ∧ (setEnabled st b).threshold_seconds = st.threshold_seconds
    ∧ (setEnabled st b).check_interval_seconds = st.check_interval_seconds := by
  refine ⟨le_max_left 10 _, le_max_left 5 _, le_max_left 5 _,
    rfl, rfl, rfl, rfl, rfl, rfl, rfl, rfl⟩

end Cyberdriver
